import Mathlib

/-!
Verification of the legacy ASP.NET `showimage` handler (namespace `pluginwiris`,
class `showimage`) of this repository: the formula-image cache/retrieval
pipeline.  The handler and its private helpers (`Page_Load`, `createImage`,
`createAndSaveImage`, `mustBeCached`, `saveImage`,
`getConfigurationAndFonts`, `getConfigurationAndFontsFromIni`) are embedded
below as pure Lean functions over an explicit trace state (an association-list
file system plus logs of reads, writes and remote render calls).

The static helper class `Libwiris` is not among the sources; only its call
sites are.  Its fixed data (`xmlFileAttributes`, the attribute-name list, and
`imageConfigProperties`, the key-translation table mapping remote parameter
names to configuration keys) are therefore passed as environment fields, and
`Libwiris.parseIni` is modelled from the spec.  Directory resolution
(`getFormulaDirectory` / `getCacheDirectory` / `MapPath`) and the remote call
(`getContents` with `getImageServiceURL`) are likewise environment data: a
formula directory, a cache directory, and an opaque rendering function from
parameter maps to PNG bytes.

C# `Hashtable` / `NameValueCollection` values are modelled as association
lists with update-in-place assignment (`aset`) and first-match lookup
(`aget`); iteration order is the insertion order, a deterministic refinement
of `Hashtable` enumeration.  Machine strings are Lean `String`s; the string
helpers used by the handler (`Split`, `Trim`, `Substring`,
`Path.GetFileNameWithoutExtension`) are embedded structurally over the
character list so that all definitions evaluate by kernel reduction.
-/

namespace Wiris

/-- Association list modelling a C# `Hashtable` with `String` keys/values. -/
abbrev AList := List (String × String)

/-- `Hashtable` lookup: first matching key, `none` when absent (C# `null`). -/
def aget : AList → String → Option String
  | [], _ => none
  | (k0, v0) :: rest, k => if k0 = k then some v0 else aget rest k

/-- `Hashtable` assignment `m[k] = v`: update in place when the key is
present, append otherwise.  Lists built from `[]` by `aset` have distinct
keys, so their length is the `Hashtable.Count`. -/
def aset : AList → String → String → AList
  | [], k, v => [(k, v)]
  | (k0, v0) :: rest, k, v =>
    if k0 = k then (k, v) :: rest else (k0, v0) :: aset rest k v

/-- Splits a character list at every occurrence of `c`, keeping empty
segments: the behaviour of C# `String.Split` with a single separator. -/
def splitChars (c : Char) : List Char → List (List Char)
  | [] => [[]]
  | x :: xs =>
    if x = c then [] :: splitChars c xs
    else
      match splitChars c xs with
      | [] => [[x]]
      | g :: gs => (x :: g) :: gs

/-- C# `content.Split(sep)` for a one-character separator. -/
def splitOnChar (c : Char) (s : String) : List String :=
  (splitChars c s.data).map String.mk

/-- White space for C# `String.Trim` (the characters that occur in the
descriptor files: space, tab, carriage return, line feed). -/
def isWS (c : Char) : Bool :=
  c = ' ' || c = '\t' || c = '\r' || c = '\n'

/-- C# `String.Trim()`: strip leading and trailing white space. -/
def trimS (s : String) : String :=
  String.mk (((s.data.dropWhile isWS).reverse.dropWhile isWS).reverse)

/-- `key.Length >= 4 && key.Substring(0, 4) == "font"`: the `font`-prefix
test used by `mustBeCached`, the user-parameter overlay and the ini parser
(`Substring(0, 4)` is the first four characters). -/
def isFontKey (k : String) : Bool :=
  decide (4 ≤ k.length) && decide (k.data.take 4 = ['f', 'o', 'n', 't'])

/-- `Libwiris.inArray(key, Libwiris.xmlFileAttributes) || (key.Length >= 4 &&
key.Substring(0, 4) == "font")`: the override-key predicate shared by
`mustBeCached` (lines 232-243) and the user-parameter overlay in
`createImage` (lines 211-220). -/
def isOverrideKey (attrs : List String) (k : String) : Bool :=
  attrs.contains k || isFontKey k

/-- `showimage.mustBeCached` (part_001 lines 232-243): true iff no query key
is an attribute name or `font`-prefixed.  The query models the ASP.NET
`QueryString` collection: one entry per distinct key. -/
def mustBeCached (attrs : List String) (query : AList) : Bool :=
  query.all fun kv => !(isOverrideKey attrs kv.1)

/-- Directory-separator characters recognised by .NET `Path` on Windows. -/
def isDirSep (c : Char) : Bool :=
  c = '/' || c = '\\' || c = ':'

/-- .NET `Path.GetFileNameWithoutExtension` (part_001 line 26): keep the
characters after the last directory separator, then drop the suffix starting
at the last dot, when there is one. -/
def getFileNameWithoutExtension (p : String) : String :=
  let f := (p.data.reverse.takeWhile (fun c => !(isDirSep c))).reverse
  match f.reverse.dropWhile (fun c => !(c = '.')) with
  | [] => String.mk f
  | _ :: before => String.mk before.reverse

/-- The parsed formula descriptor: the `Hashtable` returned by
`getConfigurationAndFonts`/`getConfigurationAndFontsFromIni` with keys
`mathml`, `config` and `fonts`. -/
structure Descriptor where
  mathml : String
  config : AList
  fonts : AList
deriving DecidableEq

/-- First loop of `getConfigurationAndFonts` (lines 88-93): positional lines
are assigned to `config[Libwiris.imageConfigProperties[attr]]` until lines or
attribute names are exhausted; a name missing from the translation table
gives a null `Hashtable` key, which throws (`none`).  Returns the updated
config and the remaining lines. -/
def assignAttrs (table : AList) : AList → List String → List String → Option (AList × List String)
  | config, ls, [] => some (config, ls)
  | config, [], _ => some (config, [])
  | config, l :: ls, a :: as =>
    match aget table a with
    | none => none
    | some ck => assignAttrs table (aset config ck (trimS l)) ls as

/-- Second loop of `getConfigurationAndFonts` (lines 97-108): every remaining
non-empty trimmed line becomes `fonts["font" + j]` with `j` counting only the
lines that were kept. -/
def collectFonts (fonts : AList) (j : Nat) : List String → AList
  | [] => fonts
  | l :: ls =>
    let t := trimS l
    if 0 < t.length then collectFonts (aset fonts ("font" ++ toString j) t) (j + 1) ls
    else collectFonts fonts j ls

/-- `showimage.getConfigurationAndFonts` (part_001 lines 73-116) on the file
content: line 0 is the MathML, the next lines map positionally onto the
attribute list, the remaining non-empty lines are `fontN` entries. -/
def getConfigurationAndFonts (table : AList) (attrs : List String) (config : AList)
    (content : String) : Option Descriptor :=
  match splitOnChar '\n' content with
  | [] => some ⟨"", config, []⟩
  | l0 :: rest =>
    match assignAttrs table config rest attrs with
    | none => none
    | some (config1, remaining) =>
      some ⟨trimS l0, config1, collectFonts [] 0 remaining⟩

/-- Splits a line at its first `=`; `none` when the line has no `=`. -/
def breakEq : List Char → Option (List Char × List Char)
  | [] => none
  | c :: cs =>
    if c = '=' then some ([], cs)
    else
      match breakEq cs with
      | none => none
      | some (k, v) => some (c :: k, v)

/-- Modelled from the spec: `Libwiris.parseIni` is not among the sources.
Section 4.1 describes the key/value format as arbitrary `key`/`value` pairs;
we model one `key=value` pair per line, splitting at the first `=` and
skipping lines without one. -/
def parseIni (content : String) : AList :=
  (splitOnChar '\n' content).foldl
    (fun acc line =>
      match breakEq line.data with
      | none => acc
      | some (k, v) => aset acc (String.mk k) (String.mk v))
    []

/-- Loop of `getConfigurationAndFontsFromIni` (lines 123-140): every parsed
entry other than `mml` goes to `fonts` when its key is `font`-prefixed and
otherwise to `config` under the translated key; an untranslatable key gives a
null `Hashtable` key, which throws (`none`). -/
def iniDistribute (table : AList) : AList → AList → AList → Option (AList × AList)
  | config, fonts, [] => some (config, fonts)
  | config, fonts, (k, v) :: rest =>
    if k = "mml" then iniDistribute table config fonts rest
    else if isFontKey k then iniDistribute table config (aset fonts k (trimS v)) rest
    else
      match aget table k with
      | none => none
      | some ck => iniDistribute table (aset config ck (trimS v)) fonts rest

/-- `showimage.getConfigurationAndFontsFromIni` (part_001 lines 118-147) on
the file content; a missing `mml` key dereferences null (`none`). -/
def getConfigurationAndFontsFromIni (table : AList) (config : AList)
    (content : String) : Option Descriptor :=
  let formulaConfig := parseIni content
  match aget formulaConfig "mml" with
  | none => none
  | some m =>
    match iniDistribute table config [] formulaConfig with
    | none => none
    | some (config1, fonts) => some ⟨trimS m, config1, fonts⟩

/-- Format dispatch at line 151 of `createImage`: ini when the probed
extension is `"ini"`, legacy line format otherwise. -/
def loadDescriptor (table : AList) (attrs : List String) (config : AList)
    (content ext : String) : Option Descriptor :=
  if ext = "ini" then getConfigurationAndFontsFromIni table config content
  else getConfigurationAndFonts table attrs config content

/-- First retrocompatibility block of `createImage` (lines 156-159):
`wirisimagenumbercolor` inherits `wirisimagesymbolcolor` when undefined. -/
def retroNum (config : AList) : AList :=
  if (aget config "wirisimagenumbercolor").isNone
      && (aget config "wirisimagesymbolcolor").isSome then
    aset config "wirisimagenumbercolor" ((aget config "wirisimagesymbolcolor").getD "")
  else config

/-- Second retrocompatibility block of `createImage` (lines 163-166):
`wirisimageidentcolor` inherits `wirisimagesymbolcolor` when undefined. -/
def retroIdent (config : AList) : AList :=
  if (aget config "wirisimageidentcolor").isNone
      && (aget config "wirisimagesymbolcolor").isSome then
    aset config "wirisimageidentcolor" ((aget config "wirisimagesymbolcolor").getD "")
  else config

/-- Both retrocompatibility blocks of `createImage` (lines 156-166), in
source order. -/
def retroConfig (config : AList) : AList :=
  retroIdent (retroNum config)

/-- Configuration-to-parameters loop of `createImage` (lines 172-181): for
every `(serverParam, configKey)` entry of the translation table whose config
value is present, emit `properties[serverParam] = value.Trim()`. -/
def emitConfigParams (table config props : AList) : AList :=
  table.foldl
    (fun ps e =>
      match aget config e.2 with
      | some v => aset ps e.1 (trimS v)
      | none => ps)
    props

/-- Font-range loop of `createImage` (lines 192-201): each trimmed range name
that resolves in `config` is appended as `fonts["font" + (carry + i)]`, and
only then is `i` incremented. -/
def fontRangesLoop (config : AList) (carry : Nat) : AList → Nat → List String → AList
  | fonts, _, [] => fonts
  | fonts, i, name :: rest =>
    match aget config (trimS name) with
    | some v =>
      fontRangesLoop config carry (aset fonts ("font" ++ toString (carry + i)) (trimS v)) (i + 1) rest
    | none => fontRangesLoop config carry fonts i rest

/-- Lines 186-202 of `createImage`: when `wirisimagefontranges` is defined,
split it on commas and run the font-range loop with `carry` the number of
fonts already present. -/
def applyFontRanges (config fonts : AList) : AList :=
  match aget config "wirisimagefontranges" with
  | none => fonts
  | some fr => fontRangesLoop config fonts.length fonts 0 (splitOnChar ',' fr)

/-- Lines 204-207 of `createImage`: copy every font entry into the parameter
map (`properties[key] = fonts[key]`; the font list has distinct keys, so the
stored pair value is the lookup result). -/
def emitFonts (fonts props : AList) : AList :=
  fonts.foldl (fun ps e => aset ps e.1 e.2) props

/-- User-parameter overlay of `createImage` (lines 211-220): every query key
that is an attribute name or `font`-prefixed overwrites the computed
parameter. -/
def applyUserParams (attrs : List String) (query props : AList) : AList :=
  query.foldl
    (fun ps kv => if isOverrideKey attrs kv.1 then aset ps kv.1 kv.2 else ps)
    props

/-- The environment of one request: the `Libwiris` statics that are not in
the sources (attribute list, translation table, loaded config, resolved
directories), the opaque remote renderer, and which paths the file system
lets the handler create (C# `FileStream` throws on a failing path). -/
structure Env where
  attrs : List String
  table : AList
  config : AList
  formulaDir : String
  cacheDir : String
  render : AList → String
  writable : String → Bool

/-- Parameter construction of `createImage` (lines 152-220) for a parsed
descriptor: retrocompatibility fallbacks, `mml`, config parameters, fonts
with ranges, then the user overlay iff `useParams`. -/
def buildProps (env : Env) (query : AList) (d : Descriptor) (useParams : Bool) : AList :=
  let config := retroConfig d.config
  let props := aset [] "mml" d.mathml
  let props := emitConfigParams env.table config props
  let fonts := applyFontRanges config d.fonts
  let props := emitFonts fonts props
  if useParams then applyUserParams env.attrs query props else props

/-- The pure core of `createImage`: parse the descriptor file content for the
probed extension and build the parameter map. -/
def createImageProps (env : Env) (query : AList) (content ext : String)
    (useParams : Bool) : Option AList :=
  (loadDescriptor env.table env.attrs env.config content ext).map
    fun d => buildProps env query d useParams

/-- The per-request trace: the file store (path to bytes), the paths whose
content or existence the handler consulted, the paths it wrote, and the
parameter maps sent to the remote renderer. -/
structure Trace where
  files : AList
  reads : List String
  writes : List String
  renderLog : List AList
deriving DecidableEq

/-- A fresh trace over a file store. -/
def Trace.init (files : AList) : Trace := ⟨files, [], [], []⟩

/-- `File.Exists`: an existence probe, logged as a read. -/
def probe (p : String) (t : Trace) : Bool × Trace :=
  ((aget t.files p).isSome, { t with reads := t.reads ++ [p] })

/-- Opening and reading a file (`StreamReader`, `Response.WriteFile`);
`none` models the exception on a missing file. -/
def readF (p : String) (t : Trace) : Option String × Trace :=
  (aget t.files p, { t with reads := t.reads ++ [p] })

/-- `showimage.saveImage` (part_001 lines 245-262): create the file and copy
the stream into it; `none` models an `IOException` from `FileStream` on a
path the file system refuses. -/
def saveImage (env : Env) (p bytes : String) (t : Trace) : Option Trace :=
  if env.writable p then
    some { t with files := aset t.files p bytes, writes := t.writes ++ [p] }
  else none

/-- `Libwiris.getContents`: the remote render call, logged. -/
def callRender (env : Env) (props : AList) (t : Trace) : String × Trace :=
  (env.render props, { t with renderLog := t.renderLog ++ [props] })

/-- `showimage.createImage` (part_001 lines 149-223) with the trace: read the
descriptor file, build the parameters, call the renderer.  `none` models the
exceptions (missing file, null `Hashtable` key, missing `mml`). -/
def createImage (env : Env) (query : AList) (formulaPath ext : String)
    (useParams : Bool) (t : Trace) : Option String × Trace :=
  match readF (formulaPath ++ "." ++ ext) t with
  | (none, t1) => (none, t1)
  | (some content, t1) =>
    match createImageProps env query content ext useParams with
    | none => (none, t1)
    | some props =>
      let r := callRender env props t1
      (some r.1, r.2)

/-- `showimage.createAndSaveImage` (part_001 lines 225-230): render without
user parameters, then persist. -/
def createAndSaveImage (env : Env) (query : AList) (formulaPath ext imagePath : String)
    (t : Trace) : Option Unit × Trace :=
  match createImage env query formulaPath ext false t with
  | (none, t1) => (none, t1)
  | (some bytes, t1) =>
    match saveImage env imagePath bytes t1 with
    | none => (none, t1)
    | some t2 => (some (), t2)

/-- The HTTP response: a PNG body (`ContentType = "image/png"`) or the plain
error text written when neither parameter is present. -/
inductive Response where
  | png (bytes : String)
  | text (msg : String)
deriving DecidableEq

/-- `Response.WriteFile(path)`: serve the bytes stored at the path. -/
def serveFile (p : String) (t : Trace) : Option Response × Trace :=
  match readF p t with
  | (none, t1) => (none, t1)
  | (some b, t1) => (some (Response.png b), t1)

/-- The `formula` branch of `Page_Load` (part_001 lines 24-49): strip the
identifier to its filename stem, probe the descriptor format, then either
serve/fill the per-identifier cache (cacheable) or render directly with the
user-parameter overlay (not cacheable). -/
def formulaRequest (env : Env) (query : AList) (fRaw : String) (t : Trace) :
    Option Response × Trace :=
  let formula := getFileNameWithoutExtension fRaw
  let formulaPath := env.formulaDir ++ "/" ++ formula
  let pr := probe (formulaPath ++ ".ini") t
  let ext := if pr.1 then "ini" else "xml"
  if mustBeCached env.attrs query then
    let imagePath := env.cacheDir ++ "/" ++ formula ++ ".png"
    let pc := probe imagePath pr.2
    if pc.1 then serveFile imagePath pc.2
    else
      match createAndSaveImage env query formulaPath ext imagePath pc.2 with
      | (none, t1) => (none, t1)
      | (some _, t1) => serveFile imagePath t1
  else
    match createImage env query formulaPath ext true pr.2 with
    | (none, t1) => (none, t1)
    | (some bytes, t1) => (some (Response.png bytes), t1)

/-- The `mml` branch of `Page_Load` (part_001 lines 51-65): minimal parameter
map, always render, overwrite the fixed `temp.png` slot, serve the file. -/
def mmlRequest (env : Env) (mml : String) (t : Trace) : Option Response × Trace :=
  let imagePath := env.cacheDir ++ "/temp.png"
  let props := aset [] "mml" mml
  let r := callRender env props t
  match saveImage env imagePath r.1 r.2 with
  | none => (none, r.2)
  | some t1 => serveFile imagePath t1

/-- `showimage.Page_Load` (part_001 lines 20-69): dispatch on the `formula`
and `mml` query parameters. -/
def Page_Load (env : Env) (query : AList) (t : Trace) : Option Response × Trace :=
  match aget query "formula" with
  | some fRaw => formulaRequest env query fRaw t
  | none =>
    match aget query "mml" with
    | some m => mmlRequest env m t
    | none => (some (Response.text "Error: no digest or mathml has been sent"), t)

/-! Statement helpers: the paths a `formula` request touches, written exactly
as `Page_Load` builds them. -/

/-- The descriptor path without its extension: `formulaPath` of line 27-28. -/
def descBase (env : Env) (f0 : String) : String :=
  env.formulaDir ++ "/" ++ getFileNameWithoutExtension f0

/-- The probed descriptor extension of line 29. -/
def extOf (files : AList) (env : Env) (f0 : String) : String :=
  if (aget files (descBase env f0 ++ ".ini")).isSome then "ini" else "xml"

/-- The per-identifier cache path `imagePath` of lines 33-34. -/
def cachePath (env : Env) (f0 : String) : String :=
  env.cacheDir ++ "/" ++ getFileNameWithoutExtension f0 ++ ".png"

/-! Specification-side helpers used only to state theorems. -/

/-- The ini lines corresponding to a legacy font block: `font0`, `font1`,
... starting at index `j`, paired with the raw values. -/
def iniFontPairs (j : Nat) : List String → AList
  | [] => []
  | f :: fs => ("font" ++ toString j, f) :: iniFontPairs (j + 1) fs

/-- The common config-updating fold shared by the positional loop of the
line format and the key/value loop of the ini format: each attribute name is
translated through the table and assigned its trimmed value. -/
def attrFold (table : AList) : AList → List (String × String) → Option AList
  | config, [] => some config
  | config, (a, v) :: rest =>
    match aget table a with
    | none => none
    | some ck => attrFold table (aset config ck (trimS v)) rest

/-- The entries the font-range loop emits: for each range name that resolves
in `config` (after trimming), a `fontN` entry with `N` counting up from `k`;
unresolvable names consume no index. -/
def rangeEntries (config : AList) (k : Nat) : List String → AList
  | [] => []
  | n :: rest =>
    match aget config (trimS n) with
    | some v => ("font" ++ toString k, trimS v) :: rangeEntries config (k + 1) rest
    | none => rangeEntries config k rest

/-- Decimal read-back used to prove that `Nat.repr` is injective. -/
def parseD (acc : Nat) (cs : List Char) : Nat :=
  cs.foldl (fun a c => a * 10 + (c.toNat - 48)) acc

/-! Concrete data for the witness instances. -/

/-- A concrete key-translation table for witnesses (the table itself is
environment data, modelled from the spec). -/
def demoTable : AList :=
  [("numbercolor", "wirisimagenumbercolor"), ("identcolor", "wirisimageidentcolor"),
   ("symbolcolor", "wirisimagesymbolcolor"), ("color", "wirisimagecolor"),
   ("fontsize", "wirisimagefontsize")]

/-- A concrete deterministic renderer for witnesses. -/
def demoRender : AList → String :=
  fun ps => "PNG[" ++ ((aget ps "mml").getD "") ++ "]"

/-- A concrete environment for witnesses: everything writable. -/
def demoEnv : Env :=
  { attrs := ["fontsize", "color"], table := demoTable, config := [],
    formulaDir := "fdir", cacheDir := "cdir", render := demoRender,
    writable := fun _ => true }

/-- A concrete environment whose file system refuses to create the cache
entry of identifier `eq9`. -/
def demoEnvReadOnlyCache : Env :=
  { demoEnv with writable := fun p => !(p == "cdir/eq9.png") }

/-! ## Basic lemmas about the embedding -/

theorem data_append (s t : String) : (s ++ t).data = s.data ++ t.data := by
  cases s; cases t; rfl

theorem aget_aset (m : AList) (k v q : String) :
    aget (aset m k v) q = if k = q then some v else aget m q := by
  induction m with
  | nil => simp [aset, aget]
  | cons e rest ih =>
    obtain ⟨k0, v0⟩ := e
    by_cases h0 : k0 = k
    · subst h0
      by_cases h1 : k0 = q <;> simp [aset, aget, h1]
    · by_cases h1 : k0 = q
      · subst h1
        have hkq : ¬(k = k0) := fun h => h0 h.symm
        simp [aset, aget, h0, hkq]
      · simp [aset, aget, h0, h1, ih]

theorem mem_aset {m : AList} {k v : String} {e : String × String}
    (he : e ∈ aset m k v) : e ∈ m ∨ e = (k, v) := by
  induction m with
  | nil => simp [aset] at he; simp [he]
  | cons e0 rest ih =>
    obtain ⟨k0, v0⟩ := e0
    by_cases h0 : k0 = k
    · simp [aset, h0] at he
      rcases he with h | h
      · right; simp [h]
      · left; simp [h]
    · simp [aset, h0] at he
      rcases he with h | h
      · left; simp [h]
      · rcases ih h with h2 | h2
        · left; simp [h2]
        · right; exact h2

theorem aset_eq_append {m : AList} {k : String} (v : String)
    (h : ∀ e ∈ m, e.1 ≠ k) : aset m k v = m ++ [(k, v)] := by
  induction m with
  | nil => simp [aset]
  | cons e0 rest ih =>
    obtain ⟨k0, v0⟩ := e0
    have hk0 : k0 ≠ k := h (k0, v0) (by simp)
    simp [aset, hk0]
    exact ih fun e he => h e (by simp [he])

theorem isFontKey_font_append (s : String) : isFontKey ("font" ++ s) = true := by
  have hd : ("font" ++ s).data = 'f' :: 'o' :: 'n' :: 't' :: s.data := by
    rw [data_append]; rfl
  have h4 : ("font" : String).length = 4 := rfl
  have hlen : 4 ≤ ("font" ++ s).length := by
    rw [String.length_append, h4]
    omega
  have htake : ("font" ++ s).data.take 4 = ['f', 'o', 'n', 't'] := by
    rw [hd]
    rfl
  simp [isFontKey, hlen, htake]
  rw [h4]
  omega

theorem font_append_ne_mml (s : String) : "font" ++ s ≠ "mml" := by
  intro h
  have h2 := congrArg String.length h
  rw [String.length_append] at h2
  have h3 : (4 : Nat) + s.length = 3 := h2
  omega

theorem append_ne_of_last {x y : String} (a b : String) (cx cy : Char)
    (rx ry : List Char) (hx : x.data.reverse = cx :: rx)
    (hy : y.data.reverse = cy :: ry) (hne : cx ≠ cy) : a ++ x ≠ b ++ y := by
  intro h
  have h2 := congrArg (fun s => s.data.reverse) h
  simp only [data_append, List.reverse_append] at h2
  rw [hx, hy] at h2
  simp only [List.cons_append, List.cons.injEq] at h2
  exact hne h2.1

theorem png_ne_dot_ini (a b : String) : a ++ ".png" ≠ b ++ ".ini" :=
  append_ne_of_last a b 'g' 'i' ['n', 'p', '.'] ['n', 'i', '.'] (by decide) (by decide)
    (by decide)

theorem png_ne_ini (a b : String) : a ++ ".png" ≠ b ++ "ini" :=
  append_ne_of_last a b 'g' 'i' ['n', 'p', '.'] ['n', 'i'] (by decide) (by decide)
    (by decide)

theorem png_ne_xml (a b : String) : a ++ ".png" ≠ b ++ "xml" :=
  append_ne_of_last a b 'g' 'l' ['n', 'p', '.'] ['m', 'x'] (by decide) (by decide)
    (by decide)

theorem string_eq_of_data_eq {s t : String} (h : s.data = t.data) : s = t := by
  cases s
  cases t
  exact congrArg String.mk h

/-! ## Injectivity of the decimal rendering of `Nat`
(the indices of the `fontN` keys built by the handler). -/

theorem digitChar_round : ∀ m < 10, (Nat.digitChar m).toNat - 48 = m := by decide

theorem parseD_toDigitsCore :
    ∀ fuel n cs, n < fuel → parseD 0 (Nat.toDigitsCore 10 fuel n cs) = parseD n cs := by
  intro fuel
  induction fuel with
  | zero => intro n cs h; omega
  | succ fuel ih =>
    intro n cs h
    simp only [Nat.toDigitsCore]
    by_cases hz : n / 10 = 0
    · have hn10 : n < 10 := by omega
      simp only [hz, if_true, parseD, List.foldl]
      rw [digitChar_round (n % 10) (Nat.mod_lt n (by omega))]
      rw [Nat.mod_eq_of_lt hn10]
      simp
    · have hdl : n / 10 < n := Nat.div_lt_self (by omega) (by omega)
      have hfuel : n / 10 < fuel := by omega
      simp only [hz, if_false]
      rw [ih (n / 10) (Nat.digitChar (n % 10) :: cs) hfuel]
      simp only [parseD, List.foldl]
      rw [digitChar_round (n % 10) (Nat.mod_lt n (by omega))]
      have hdm : n / 10 * 10 + n % 10 = n := by omega
      rw [hdm]

theorem natRepr_injective {a b : Nat} (h : Nat.repr a = Nat.repr b) : a = b := by
  have hd := congrArg String.data h
  have ea : (Nat.repr a).data = Nat.toDigitsCore 10 (a + 1) a [] := rfl
  have eb : (Nat.repr b).data = Nat.toDigitsCore 10 (b + 1) b [] := rfl
  rw [ea, eb] at hd
  have h2 := congrArg (parseD 0) hd
  rw [parseD_toDigitsCore (a + 1) a [] (by omega),
      parseD_toDigitsCore (b + 1) b [] (by omega)] at h2
  simpa [parseD] using h2

theorem toString_nat_injective {a b : Nat} (h : (toString a : String) = toString b) :
    a = b :=
  natRepr_injective h

theorem font_index_injective {i j : Nat}
    (h : "font" ++ toString i = "font" ++ toString j) : i = j := by
  have hd := congrArg String.data h
  rw [data_append, data_append] at hd
  have h2 : (toString i : String).data = (toString j : String).data :=
    List.append_cancel_left hd
  exact toString_nat_injective (string_eq_of_data_eq h2)

/-! ## Lookup lemmas for the parameter builder -/

theorem emitConfigParams_cons (e : String × String) (rest : AList)
    (config props : AList) :
    emitConfigParams (e :: rest) config props =
      emitConfigParams rest config
        (match aget config e.2 with
         | some v => aset props e.1 (trimS v)
         | none => props) := rfl

theorem emitFonts_cons (e : String × String) (rest props : AList) :
    emitFonts (e :: rest) props = emitFonts rest (aset props e.1 e.2) := rfl

theorem applyUserParams_cons (attrs : List String) (kv : String × String)
    (rest props : AList) :
    applyUserParams attrs (kv :: rest) props =
      applyUserParams attrs rest
        (if isOverrideKey attrs kv.1 then aset props kv.1 kv.2 else props) := rfl

theorem aget_emitConfigParams_not_mem {table : AList} (config props : AList)
    {k : String} (h : ∀ e ∈ table, e.1 ≠ k) :
    aget (emitConfigParams table config props) k = aget props k := by
  induction table generalizing props with
  | nil => rfl
  | cons e rest ih =>
    rw [emitConfigParams_cons]
    cases hv : aget config e.2 with
    | none =>
      simp only [hv]
      exact ih props fun e2 he2 => h e2 (by simp [he2])
    | some v =>
      simp only [hv]
      rw [ih (aset props e.1 (trimS v)) fun e2 he2 => h e2 (by simp [he2])]
      rw [aget_aset]
      simp [h e (by simp)]

theorem aget_emitConfigParams_mem {table config : AList} (props : AList)
    {k ck v : String} (hmem : (k, ck) ∈ table)
    (hnod : (table.map Prod.fst).Nodup) (hv : aget config ck = some v) :
    aget (emitConfigParams table config props) k = some (trimS v) := by
  induction table generalizing props with
  | nil => cases hmem
  | cons e rest ih =>
    rw [List.map_cons, List.nodup_cons] at hnod
    rcases List.mem_cons.mp hmem with he | he
    · subst he
      rw [emitConfigParams_cons]
      simp only [hv]
      have hrest : ∀ e2 ∈ rest, e2.1 ≠ k := by
        intro e2 he2 hk
        apply hnod.1
        rw [← hk]
        exact List.mem_map.mpr ⟨e2, he2, rfl⟩
      rw [aget_emitConfigParams_not_mem config (aset props k (trimS v)) hrest]
      rw [aget_aset]
      simp
    · rw [emitConfigParams_cons]
      cases hv2 : aget config e.2 with
      | none => simp only [hv2]; exact ih props he hnod.2
      | some v2 => simp only [hv2]; exact ih (aset props e.1 (trimS v2)) he hnod.2

theorem aget_emitFonts_not_mem {fonts : AList} (props : AList) {k : String}
    (h : ∀ e ∈ fonts, e.1 ≠ k) :
    aget (emitFonts fonts props) k = aget props k := by
  induction fonts generalizing props with
  | nil => rfl
  | cons e rest ih =>
    rw [emitFonts_cons]
    rw [ih (aset props e.1 e.2) fun e2 he2 => h e2 (by simp [he2])]
    rw [aget_aset]
    simp [h e (by simp)]

theorem fontRangesLoop_key_pred {config : AList} {carry : Nat}
    (P : String → Prop) (hP : ∀ s, P ("font" ++ s)) :
    ∀ names (fonts : AList) i, (∀ e ∈ fonts, P e.1) →
      ∀ e ∈ fontRangesLoop config carry fonts i names, P e.1 := by
  intro names
  induction names with
  | nil => intro fonts i h e he; exact h e he
  | cons name rest ih =>
    intro fonts i h e he
    simp only [fontRangesLoop] at he
    cases hv : aget config (trimS name) with
    | none =>
      rw [hv] at he
      exact ih fonts i h e he
    | some v =>
      rw [hv] at he
      refine ih _ (i + 1) ?_ e he
      intro e2 he2
      rcases mem_aset he2 with h2 | h2
      · exact h e2 h2
      · rw [h2]
        exact hP (toString (carry + i))

theorem applyFontRanges_key_pred (P : String → Prop)
    (hP : ∀ s, P ("font" ++ s)) (config fonts : AList)
    (h : ∀ e ∈ fonts, P e.1) : ∀ e ∈ applyFontRanges config fonts, P e.1 := by
  intro e he
  simp only [applyFontRanges] at he
  cases hfr : aget config "wirisimagefontranges" with
  | none => rw [hfr] at he; exact h e he
  | some fr =>
    rw [hfr] at he
    exact fontRangesLoop_key_pred P hP _ fonts 0 h e he

theorem aget_applyUserParams_not_mem {attrs : List String} {query : AList}
    (props : AList) {k : String} (h : ∀ kv ∈ query, kv.1 ≠ k) :
    aget (applyUserParams attrs query props) k = aget props k := by
  induction query generalizing props with
  | nil => rfl
  | cons kv rest ih =>
    rw [applyUserParams_cons]
    by_cases hov : isOverrideKey attrs kv.1
    · simp only [hov, if_true]
      rw [ih (aset props kv.1 kv.2) fun e he => h e (by simp [he])]
      rw [aget_aset]
      simp [h kv (by simp)]
    · simp only [hov, if_false]
      exact ih props fun e he => h e (by simp [he])

theorem aget_applyUserParams_not_override {attrs : List String} {query : AList}
    (props : AList) {k : String} (h : isOverrideKey attrs k = false) :
    aget (applyUserParams attrs query props) k = aget props k := by
  induction query generalizing props with
  | nil => rfl
  | cons kv rest ih =>
    rw [applyUserParams_cons]
    by_cases hov : isOverrideKey attrs kv.1
    · have hne : kv.1 ≠ k := by
        intro he
        rw [he, h] at hov
        simp at hov
      simp only [hov, if_true]
      rw [ih (aset props kv.1 kv.2)]
      rw [aget_aset]
      simp [hne]
    · simp only [hov, if_false]
      exact ih props

theorem aget_applyUserParams_mem {attrs : List String} {query : AList}
    (props : AList) {k v : String} (hnod : (query.map Prod.fst).Nodup)
    (hmem : (k, v) ∈ query) (hov : isOverrideKey attrs k = true) :
    aget (applyUserParams attrs query props) k = some v := by
  induction query generalizing props with
  | nil => cases hmem
  | cons kv rest ih =>
    rw [List.map_cons, List.nodup_cons] at hnod
    rcases List.mem_cons.mp hmem with he | he
    · subst he
      rw [applyUserParams_cons]
      simp only [hov, if_true]
      have hrest : ∀ e ∈ rest, e.1 ≠ k := by
        intro e he2 hk
        apply hnod.1
        rw [← hk]
        exact List.mem_map.mpr ⟨e, he2, rfl⟩
      rw [aget_applyUserParams_not_mem (aset props k v) hrest]
      rw [aget_aset]
      simp
    · rw [applyUserParams_cons]
      by_cases h2 : isOverrideKey attrs kv.1
      · simp only [h2, if_true]
        exact ih (aset props kv.1 kv.2) hnod.2 he
      · simp only [h2, if_false]
        exact ih props hnod.2 he

theorem applyUserParams_id {attrs : List String} {query : AList}
    (props : AList) (h : ∀ kv ∈ query, isOverrideKey attrs kv.1 = false) :
    applyUserParams attrs query props = props := by
  induction query generalizing props with
  | nil => rfl
  | cons kv rest ih =>
    rw [applyUserParams_cons]
    rw [h kv (by simp)]
    simp only [if_false, Bool.false_eq_true]
    exact ih props fun e he => h e (by simp [he])

/-! ## Retrocompatibility colour inheritance -/

theorem ident_ne_num :
    ("wirisimageidentcolor" : String) ≠ "wirisimagenumbercolor" := by decide

theorem num_ne_ident :
    ("wirisimagenumbercolor" : String) ≠ "wirisimageidentcolor" := by decide

theorem num_ne_sym :
    ("wirisimagenumbercolor" : String) ≠ "wirisimagesymbolcolor" := by decide

theorem aget_retroConfig_num {config : AList} {c : String}
    (hs : aget config "wirisimagesymbolcolor" = some c)
    (hn : aget config "wirisimagenumbercolor" = none) :
    aget (retroConfig config) "wirisimagenumbercolor" = some c := by
  have e1 : retroNum config = aset config "wirisimagenumbercolor" c := by
    simp [retroNum, hs, hn]
  have hn2 : aget (retroNum config) "wirisimagenumbercolor" = some c := by
    rw [e1, aget_aset]
    simp
  have hi2 : aget (retroNum config) "wirisimageidentcolor"
      = aget config "wirisimageidentcolor" := by
    rw [e1, aget_aset]
    simp [num_ne_ident]
  have hs2 : aget (retroNum config) "wirisimagesymbolcolor"
      = aget config "wirisimagesymbolcolor" := by
    rw [e1, aget_aset]
    simp [num_ne_sym]
  unfold retroConfig retroIdent
  cases hi : aget config "wirisimageidentcolor" with
  | none =>
    simp only [hi2, hi, hs2, hs, Option.isNone_none, Option.isSome_some,
      Bool.and_self, if_true]
    rw [aget_aset]
    simp [ident_ne_num, hn2]
  | some v =>
    simp only [hi2, hi, Option.isNone_some, Bool.false_and, Bool.false_eq_true,
      if_false]
    exact hn2

theorem aget_retroConfig_ident {config : AList} {c : String}
    (hs : aget config "wirisimagesymbolcolor" = some c)
    (hi : aget config "wirisimageidentcolor" = none) :
    aget (retroConfig config) "wirisimageidentcolor" = some c := by
  have hi2 : aget (retroNum config) "wirisimageidentcolor" = none := by
    unfold retroNum
    cases hn : aget config "wirisimagenumbercolor" with
    | none =>
      simp only [hn, hs, Option.isNone_none, Option.isSome_some, Bool.and_self,
        if_true]
      rw [aget_aset]
      simp [num_ne_ident, hi]
    | some v => simp [hn, hi]
  have hs2 : aget (retroNum config) "wirisimagesymbolcolor" = some c := by
    unfold retroNum
    cases hn : aget config "wirisimagenumbercolor" with
    | none =>
      simp only [hn, hs, Option.isNone_none, Option.isSome_some, Bool.and_self,
        if_true]
      rw [aget_aset]
      simp [num_ne_sym, hs]
    | some v => simp [hn, hs]
  unfold retroConfig retroIdent
  simp only [hi2, hs2, Option.isNone_none, Option.isSome_some, Bool.and_self,
    if_true]
  rw [aget_aset]
  simp

/-! ## Parameter lookups through the whole builder -/

theorem aget_buildProps_param (env : Env) (query : AList) (d : Descriptor)
    (useParams : Bool) {sp ck c1 : String}
    (hmem : (sp, ck) ∈ env.table) (hnod : (env.table.map Prod.fst).Nodup)
    (hc : aget (retroConfig d.config) ck = some c1)
    (hfk : isFontKey sp = false)
    (hfonts : ∀ e ∈ d.fonts, isFontKey e.1 = true)
    (hq : ∀ kv ∈ query, kv.1 ≠ sp) :
    aget (buildProps env query d useParams) sp = some (trimS c1) := by
  have hne_fonts : ∀ e ∈ applyFontRanges (retroConfig d.config) d.fonts, e.1 ≠ sp := by
    intro e he hk
    have := applyFontRanges_key_pred (fun k => isFontKey k = true)
      (fun s => isFontKey_font_append s) (retroConfig d.config) d.fonts hfonts e he
    rw [hk, hfk] at this
    cases this
  have hbase :
      aget (emitFonts (applyFontRanges (retroConfig d.config) d.fonts)
        (emitConfigParams env.table (retroConfig d.config)
          (aset [] "mml" d.mathml))) sp = some (trimS c1) := by
    rw [aget_emitFonts_not_mem _ hne_fonts]
    exact aget_emitConfigParams_mem _ hmem hnod hc
  cases useParams with
  | false => simpa only [buildProps, if_false, Bool.false_eq_true] using hbase
  | true =>
    simp only [buildProps, if_true]
    rw [aget_applyUserParams_not_mem _ hq]
    exact hbase

/-! ## Claim C5: colour inheritance -/

/-- C5: for every descriptor whose config defines `symbolcolor` but not
`numbercolor` (respectively not `identcolor`), the built render parameters
include `numbercolor` (respectively `identcolor`) equal to the `symbolcolor`
value, and the inheritance is applied identically whether the descriptor was
loaded from the line format or the key/value format (the extension `ext` is
arbitrary and the parameters are built by the shared `buildProps`). -/
theorem c5_color_inheritance (env : Env) (query : AList) (content ext : String)
    (d : Descriptor) (c : String)
    (hload : loadDescriptor env.table env.attrs env.config content ext = some d)
    (hsym : aget d.config "wirisimagesymbolcolor" = some c)
    (hnc : ("numbercolor", "wirisimagenumbercolor") ∈ env.table)
    (hic : ("identcolor", "wirisimageidentcolor") ∈ env.table)
    (hnod : (env.table.map Prod.fst).Nodup)
    (hfonts : ∀ e ∈ d.fonts, isFontKey e.1 = true)
    (hqn : ∀ kv ∈ query, kv.1 ≠ "numbercolor")
    (hqi : ∀ kv ∈ query, kv.1 ≠ "identcolor")
    (useParams : Bool) :
    createImageProps env query content ext useParams
        = some (buildProps env query d useParams)
      ∧ (aget d.config "wirisimagenumbercolor" = none →
          aget (buildProps env query d useParams) "numbercolor" = some (trimS c))
      ∧ (aget d.config "wirisimageidentcolor" = none →
          aget (buildProps env query d useParams) "identcolor" = some (trimS c)) := by
  refine ⟨?_, ?_, ?_⟩
  · simp [createImageProps, hload]
  · intro hn
    exact aget_buildProps_param env query d useParams hnc hnod
      (aget_retroConfig_num hsym hn) (by decide) hfonts hqn
  · intro hi
    exact aget_buildProps_param env query d useParams hic hnod
      (aget_retroConfig_ident hsym hi) (by decide) hfonts hqi

/-- Witness for C5 at a concrete ini descriptor defining only
`symbolcolor`. -/
theorem c5_witness :
    createImageProps demoEnv [("formula", "eq5")]
          "mml=<m>y</m>\nsymbolcolor=#123" "ini" true
        = some (buildProps demoEnv [("formula", "eq5")]
            ⟨"<m>y</m>", [("wirisimagesymbolcolor", "#123")], []⟩ true)
      ∧ (aget [("wirisimagesymbolcolor", "#123")] "wirisimagenumbercolor" = none →
          aget (buildProps demoEnv [("formula", "eq5")]
              ⟨"<m>y</m>", [("wirisimagesymbolcolor", "#123")], []⟩ true)
            "numbercolor" = some (trimS "#123"))
      ∧ (aget [("wirisimagesymbolcolor", "#123")] "wirisimageidentcolor" = none →
          aget (buildProps demoEnv [("formula", "eq5")]
              ⟨"<m>y</m>", [("wirisimagesymbolcolor", "#123")], []⟩ true)
            "identcolor" = some (trimS "#123")) :=
  c5_color_inheritance demoEnv [("formula", "eq5")]
    "mml=<m>y</m>\nsymbolcolor=#123" "ini"
    ⟨"<m>y</m>", [("wirisimagesymbolcolor", "#123")], []⟩ "#123"
    (by decide) (by decide) (by decide) (by decide) (by decide)
    (by decide) (by decide) (by decide) true

/-! ## Claim C6: font-range numbering -/

theorem fontN_ne_of_index_ne {s : String} {n : Nat} (m : Nat)
    (hs : s = "font" ++ toString m) (hmn : m ≠ n) :
    s ≠ "font" ++ toString n := by
  rw [hs]
  intro h
  exact hmn (font_index_injective h)

theorem fontRangesLoop_eq_append (config : AList) (carry : Nat) :
    ∀ (names : List String) (fonts : AList) (i : Nat),
      (∀ j, i ≤ j → ∀ e ∈ fonts, e.1 ≠ "font" ++ toString (carry + j)) →
      fontRangesLoop config carry fonts i names
        = fonts ++ rangeEntries config (carry + i) names := by
  intro names
  induction names with
  | nil => intro fonts i h; simp [fontRangesLoop, rangeEntries]
  | cons name rest ih =>
    intro fonts i h
    cases hv : aget config (trimS name) with
    | none =>
      simp only [fontRangesLoop, rangeEntries, hv]
      exact ih fonts i h
    | some v =>
      simp only [fontRangesLoop, rangeEntries, hv]
      have hfresh : ∀ e ∈ fonts, e.1 ≠ "font" ++ toString (carry + i) :=
        h i (Nat.le_refl i)
      have hinv : ∀ j, i + 1 ≤ j →
          ∀ e ∈ fonts ++ [("font" ++ toString (carry + i), trimS v)],
            e.1 ≠ "font" ++ toString (carry + j) := by
        intro j hj e he
        rcases List.mem_append.mp he with h2 | h2
        · exact h j (by omega) e h2
        · have he2 : e = ("font" ++ toString (carry + i), trimS v) := by
            simpa using h2
          rw [he2]
          exact fontN_ne_of_index_ne (carry + i) rfl (by omega)
      rw [aset_eq_append (trimS v) hfresh]
      rw [ih (fonts ++ [("font" ++ toString (carry + i), trimS v)]) (i + 1) hinv]
      simp only [List.append_assoc, List.singleton_append, List.cons_append,
        List.nil_append, Nat.add_assoc]

/-- C6: for every descriptor whose config declares `fontranges`, each named
range that resolves in the config is emitted as an additional `fontN` entry
whose index continues after the count of fonts already present, in list
order, and unresolvable names are skipped without consuming an index
(`rangeEntries` keeps the index unchanged on a failed lookup); existing
entries are not renumbered (they are kept as a prefix). -/
theorem c6_fontranges (config fonts : AList) (fr : String)
    (hfr : aget config "wirisimagefontranges" = some fr)
    (hfresh : ∀ j, ∀ e ∈ fonts, e.1 ≠ "font" ++ toString (fonts.length + j)) :
    applyFontRanges config fonts
      = fonts ++ rangeEntries config fonts.length (splitOnChar ',' fr) := by
  simp only [applyFontRanges, hfr]
  have h := fontRangesLoop_eq_append config fonts.length (splitOnChar ',' fr)
    fonts 0 (fun j _ => hfresh j)
  simpa using h

/-- Witness for C6 at the concrete example of the spec: two pre-existing
fonts and two resolvable ranges give `font2` and `font3`, in order. -/
theorem c6_witness :
    applyFontRanges
        [("wirisimagefontranges", "rangeA,rangeB"), ("rangeA", "10-20"),
         ("rangeB", "30-40")]
        [("font0", "f0"), ("font1", "f1")]
      = [("font0", "f0"), ("font1", "f1"), ("font2", "10-20"),
         ("font3", "30-40")] := by
  have h := c6_fontranges
    [("wirisimagefontranges", "rangeA,rangeB"), ("rangeA", "10-20"),
     ("rangeB", "30-40")]
    [("font0", "f0"), ("font1", "f1")] "rangeA,rangeB" (by decide) ?_
  · rw [h]
    decide
  · intro j e he hk
    have hlen : ([("font0", "f0"), ("font1", "f1")] : AList).length = 2 := rfl
    rw [hlen] at hk
    have he2 : e = ("font0", "f0") ∨ e = ("font1", "f1") := by simpa using he
    rcases he2 with h2 | h2
    · rw [h2] at hk
      exact absurd hk (fontN_ne_of_index_ne 0 (by decide) (by omega))
    · rw [h2] at hk
      exact absurd hk (fontN_ne_of_index_ne 1 (by decide) (by omega))

/-! ## Claim C7: the caller-override overlay -/

/-- C7: the builder overlays caller-supplied query parameters iff
`useParams` is true (with the flag false the result does not depend on the
query at all); the overlay touches exactly the keys that are attribute names
or `font`-prefixed, and an overlaid value takes precedence over everything
computed from the descriptor. -/
theorem c7_overrides_overlay (env : Env) (query q2 : AList) (d : Descriptor) :
    buildProps env query d false = buildProps env q2 d false
      ∧ (∀ k v, (query.map Prod.fst).Nodup → (k, v) ∈ query →
          isOverrideKey env.attrs k = true →
          aget (buildProps env query d true) k = some v)
      ∧ (∀ k, isOverrideKey env.attrs k = false →
          aget (buildProps env query d true) k
            = aget (buildProps env query d false) k) := by
  refine ⟨rfl, ?_, ?_⟩
  · intro k v hnod hmem hov
    simp only [buildProps, if_true]
    exact aget_applyUserParams_mem _ hnod hmem hov
  · intro k hov
    simp only [buildProps, if_true, if_false, Bool.false_eq_true]
    exact aget_applyUserParams_not_override _ hov

/-- Witness for C7: a `fontsize` override wins over the descriptor value,
a query-independent build with the flag off, and an untouched key. -/
theorem c7_witness :
    aget (buildProps demoEnv [("fontsize", "20")]
        ⟨"<m>z</m>", [("wirisimagefontsize", "12")], []⟩ true) "fontsize"
      = some "20"
      ∧ buildProps demoEnv [("fontsize", "20")]
          ⟨"<m>z</m>", [("wirisimagefontsize", "12")], []⟩ false
        = buildProps demoEnv [] ⟨"<m>z</m>", [("wirisimagefontsize", "12")], []⟩ false
      ∧ aget (buildProps demoEnv [("fontsize", "20")]
          ⟨"<m>z</m>", [("wirisimagefontsize", "12")], []⟩ true) "mml"
        = aget (buildProps demoEnv [("fontsize", "20")]
            ⟨"<m>z</m>", [("wirisimagefontsize", "12")], []⟩ false) "mml" :=
  ⟨(c7_overrides_overlay demoEnv [("fontsize", "20")] []
      ⟨"<m>z</m>", [("wirisimagefontsize", "12")], []⟩).2.1 "fontsize" "20"
      (by decide) (by decide) (by decide),
   (c7_overrides_overlay demoEnv [("fontsize", "20")] []
      ⟨"<m>z</m>", [("wirisimagefontsize", "12")], []⟩).1,
   (c7_overrides_overlay demoEnv [("fontsize", "20")] []
      ⟨"<m>z</m>", [("wirisimagefontsize", "12")], []⟩).2.2 "mml" (by decide)⟩

/-! ## Claim C10: cacheable requests ignore non-identifier parameters -/

theorem buildProps_false_query (env : Env) (q1 q2 : AList) (d : Descriptor) :
    buildProps env q1 d false = buildProps env q2 d false := rfl

theorem createAndSaveImage_query (env : Env) (q1 q2 : AList)
    (fp ext ip : String) (t : Trace) :
    createAndSaveImage env q1 fp ext ip t = createAndSaveImage env q2 fp ext ip t := rfl

/-- C10: the cacheability test and the caller overlay share the override-key
predicate, so on a cacheable request the overlay would add nothing even if it
were applied (`applyUserParams` is the identity), and the whole response of a
cacheable `formula` request is unchanged when any non-override query
parameters change. -/
theorem c10_cacheable_noninterference (env : Env) (q1 q2 : AList) (f0 : String)
    (t : Trace) (props : AList)
    (hmc1 : mustBeCached env.attrs q1 = true)
    (hmc2 : mustBeCached env.attrs q2 = true)
    (hf1 : aget q1 "formula" = some f0)
    (hf2 : aget q2 "formula" = some f0) :
    applyUserParams env.attrs q1 props = props
      ∧ Page_Load env q1 t = Page_Load env q2 t := by
  constructor
  · apply applyUserParams_id
    intro kv hm
    have h := List.all_eq_true.mp hmc1 kv hm
    simpa using h
  · have hq : createAndSaveImage env q1 = createAndSaveImage env q2 := rfl
    simp only [Page_Load, hf1, hf2, formulaRequest, hmc1, hmc2, if_true]
    rw [hq]

/-- Witness for C10: two cacheable requests for `eq1` differing in a
`lang`/`other` parameter produce identical traces and responses. -/
theorem c10_witness :
    applyUserParams demoEnv.attrs [("formula", "eq1"), ("lang", "en")] [("mml", "x")]
        = [("mml", "x")]
      ∧ Page_Load demoEnv [("formula", "eq1"), ("lang", "en")]
          (Trace.init [("fdir/eq1.xml", "<m>1</m>")])
        = Page_Load demoEnv [("formula", "eq1"), ("other", "y")]
          (Trace.init [("fdir/eq1.xml", "<m>1</m>")]) :=
  c10_cacheable_noninterference demoEnv [("formula", "eq1"), ("lang", "en")]
    [("formula", "eq1"), ("other", "y")] "eq1"
    (Trace.init [("fdir/eq1.xml", "<m>1</m>")]) [("mml", "x")]
    (by decide) (by decide) (by decide) (by decide)

/-! ## Claim C4: line format versus key/value format -/

theorem assignAttrs_zip (table : AList) :
    ∀ (attrs vs fs : List String) (config : AList),
      vs.length = attrs.length →
      assignAttrs table config (vs ++ fs) attrs
        = (attrFold table config (attrs.zip vs)).map (fun c => (c, fs)) := by
  intro attrs
  induction attrs with
  | nil =>
    intro vs fs config hlen
    have hv : vs = [] := List.eq_nil_of_length_eq_zero hlen
    subst hv
    simp [assignAttrs, attrFold]
  | cons a as ih =>
    intro vs fs config hlen
    cases vs with
    | nil => simp at hlen
    | cons v vs2 =>
      simp only [List.cons_append, assignAttrs, List.zip_cons_cons, attrFold]
      cases hv : aget table a with
      | none => simp
      | some ck =>
        simp only []
        exact ih vs2 fs (aset config ck (trimS v)) (by simpa using hlen)

theorem iniDistribute_attrs (table : AList) :
    ∀ (ps : AList) (config fonts qs : AList),
      (∀ p ∈ ps, p.1 ≠ "mml" ∧ isFontKey p.1 = false) →
      iniDistribute table config fonts (ps ++ qs)
        = match attrFold table config ps with
          | none => none
          | some c1 => iniDistribute table c1 fonts qs := by
  intro ps
  induction ps with
  | nil => intros; simp [attrFold]
  | cons p rest ih =>
    intro config fonts qs hp
    obtain ⟨k, v⟩ := p
    have hk := hp (k, v) (by simp)
    simp only [List.cons_append, iniDistribute, attrFold]
    rw [if_neg hk.1]
    simp only [hk.2, if_false, Bool.false_eq_true]
    cases hv : aget table k with
    | none => simp
    | some ck =>
      simp only []
      exact ih (aset config ck (trimS v)) fonts qs fun p hp2 => hp p (by simp [hp2])

theorem iniDistribute_fonts (table : AList) :
    ∀ (fs : List String) (j : Nat) (config fonts : AList),
      (∀ f ∈ fs, 0 < (trimS f).length) →
      iniDistribute table config fonts (iniFontPairs j fs)
        = some (config, collectFonts fonts j fs) := by
  intro fs
  induction fs with
  | nil => intros; simp [iniFontPairs, iniDistribute, collectFonts]
  | cons f rest ih =>
    intro j config fonts hf
    simp only [iniFontPairs, iniDistribute, collectFonts]
    rw [if_neg (font_append_ne_mml (toString j))]
    simp only [isFontKey_font_append, if_true]
    have h3 : 0 < (trimS f).length := hf f (by simp)
    simp only [h3, if_pos]
    exact ih (j + 1) config (aset fonts ("font" ++ toString j) (trimS f))
      fun g hg => hf g (by simp [hg])

/-- C4: a descriptor file in legacy line format and one in key/value format
holding the same logical descriptor (the same MathML, the same positional
attribute values, the same font list) parse to the same `Descriptor`: the
same mathml, the same config mapping, the same fonts mapping. -/
theorem c4_format_equivalence (table config : AList) (attrs : List String)
    (lineContent iniContent m : String) (vs fs : List String)
    (hline : splitOnChar '\n' lineContent = m :: (vs ++ fs))
    (hini : parseIni iniContent = ("mml", m) :: (attrs.zip vs ++ iniFontPairs 0 fs))
    (hlen : vs.length = attrs.length)
    (hattrs : ∀ a ∈ attrs, a ≠ "mml" ∧ isFontKey a = false)
    (hfs : ∀ f ∈ fs, 0 < (trimS f).length) :
    getConfigurationAndFonts table attrs config lineContent
      = getConfigurationAndFontsFromIni table config iniContent := by
  have hzip : ∀ p ∈ attrs.zip vs, p.1 ≠ "mml" ∧ isFontKey p.1 = false := by
    intro p hp
    exact hattrs p.1 (List.of_mem_zip hp).1
  simp only [getConfigurationAndFonts, hline]
  rw [assignAttrs_zip table attrs vs fs config hlen]
  simp only [getConfigurationAndFontsFromIni, hini]
  simp only [aget, iniDistribute, if_pos rfl, if_true]
  rw [iniDistribute_attrs table (attrs.zip vs) config [] (iniFontPairs 0 fs) hzip]
  cases haf : attrFold table config (attrs.zip vs) with
  | none => simp
  | some c1 =>
    simp only [Option.map_some']
    rw [iniDistribute_fonts table fs 0 c1 [] hfs]

/-- Witness for C4 at a concrete logical descriptor (`color = red`, one
font line). -/
theorem c4_witness :
    getConfigurationAndFonts demoTable ["color"] [] "<m>x</m>\nred\nArial"
      = getConfigurationAndFontsFromIni demoTable []
          "mml=<m>x</m>\ncolor=red\nfont0=Arial" :=
  c4_format_equivalence demoTable [] ["color"] "<m>x</m>\nred\nArial"
    "mml=<m>x</m>\ncolor=red\nfont0=Arial" "<m>x</m>" ["red"] ["Arial"]
    (by decide) (by decide) (by decide) (by decide) (by decide)

/-! ## Claim C8: the raw-mml entry point -/

/-- C8: for every request supplying `mml` and no `formula`, the handler
renders (with the minimal parameter map holding only `mml`), writes the
result to the single fixed slot `cacheDir/temp.png` before serving it, and
touches no other path; a repeated identical request renders again. -/
theorem c8_mml_always_renders (env : Env) (query files : AList) (m : String)
    (hf : aget query "formula" = none)
    (hm : aget query "mml" = some m)
    (hw : env.writable (env.cacheDir ++ "/temp.png") = true) :
    (Page_Load env query (Trace.init files)).1
        = some (Response.png (env.render [("mml", m)]))
      ∧ (Page_Load env query (Trace.init files)).2.renderLog = [[("mml", m)]]
      ∧ (Page_Load env query (Trace.init files)).2.writes
        = [env.cacheDir ++ "/temp.png"]
      ∧ (Page_Load env query (Trace.init files)).2.reads
        = [env.cacheDir ++ "/temp.png"]
      ∧ (Page_Load env query (Trace.init files)).2.files
        = aset files (env.cacheDir ++ "/temp.png") (env.render [("mml", m)])
      ∧ (Page_Load env query
            (Page_Load env query (Trace.init files)).2).2.renderLog
        = [[("mml", m)], [("mml", m)]] := by
  simp [Page_Load, hf, hm, mmlRequest, callRender, saveImage, serveFile, readF,
    Trace.init, hw, aget_aset, aset]

/-- Witness for C8 at a concrete raw-mml request. -/
theorem c8_witness :
    (Page_Load demoEnv [("mml", "<m>w</m>")] (Trace.init [])).1
        = some (Response.png (demoEnv.render [("mml", "<m>w</m>")]))
      ∧ (Page_Load demoEnv [("mml", "<m>w</m>")] (Trace.init [])).2.renderLog
        = [[("mml", "<m>w</m>")]]
      ∧ (Page_Load demoEnv [("mml", "<m>w</m>")] (Trace.init [])).2.writes
        = [demoEnv.cacheDir ++ "/temp.png"]
      ∧ (Page_Load demoEnv [("mml", "<m>w</m>")] (Trace.init [])).2.reads
        = [demoEnv.cacheDir ++ "/temp.png"]
      ∧ (Page_Load demoEnv [("mml", "<m>w</m>")] (Trace.init [])).2.files
        = aset [] (demoEnv.cacheDir ++ "/temp.png")
            (demoEnv.render [("mml", "<m>w</m>")])
      ∧ (Page_Load demoEnv [("mml", "<m>w</m>")]
            (Page_Load demoEnv [("mml", "<m>w</m>")] (Trace.init [])).2).2.renderLog
        = [[("mml", "<m>w</m>")], [("mml", "<m>w</m>")]] :=
  c8_mml_always_renders demoEnv [("mml", "<m>w</m>")] [] "<m>w</m>"
    (by decide) (by decide) (by decide)

/-! ## Claim C2: non-cacheable requests never touch the cache -/

/-- C2: for every `formula` request carrying at least one override key
(`mustBeCached` false), the handler calls the renderer on that request,
leaves the file store unchanged, writes nothing, and neither reads nor
writes the per-identifier cache entry `cacheDir/identifier.png`. -/
theorem c2_noncacheable_no_cache_touch (env : Env) (query files : AList)
    (f0 content : String) (props : AList)
    (hq : aget query "formula" = some f0)
    (hmc : mustBeCached env.attrs query = false)
    (hcontent : aget files (descBase env f0 ++ "." ++ extOf files env f0)
      = some content)
    (hprops : createImageProps env query content (extOf files env f0) true
      = some props) :
    (Page_Load env query (Trace.init files)).1
        = some (Response.png (env.render props))
      ∧ (Page_Load env query (Trace.init files)).2.files = files
      ∧ (Page_Load env query (Trace.init files)).2.writes = []
      ∧ (Page_Load env query (Trace.init files)).2.renderLog = [props]
      ∧ cachePath env f0 ∉ (Page_Load env query (Trace.init files)).2.reads := by
  simp only [descBase, extOf] at hcontent hprops
  cases hini : (aget files (env.formulaDir ++ "/"
      ++ getFileNameWithoutExtension f0 ++ ".ini")).isSome with
  | true =>
    simp only [hini, if_true] at hcontent hprops
    simp [Page_Load, hq, formulaRequest, hmc, probe, readF, createImage,
      callRender, Trace.init, hini, hcontent, hprops, cachePath,
      png_ne_dot_ini, png_ne_ini]
  | false =>
    simp only [hini, if_false, Bool.false_eq_true] at hcontent hprops
    simp [Page_Load, hq, formulaRequest, hmc, probe, readF, createImage,
      callRender, Trace.init, hini, hcontent, hprops, cachePath,
      png_ne_dot_ini, png_ne_xml]

/-- Witness for C2: a `fontsize` override forces a fresh render and no
cache access. -/
theorem c2_witness :
    (Page_Load demoEnv [("formula", "eq1"), ("fontsize", "20")]
          (Trace.init [("fdir/eq1.xml", "<m>1</m>")])).1
        = some (Response.png (demoEnv.render
            (buildProps demoEnv [("formula", "eq1"), ("fontsize", "20")]
              ⟨"<m>1</m>", [], []⟩ true)))
      ∧ (Page_Load demoEnv [("formula", "eq1"), ("fontsize", "20")]
            (Trace.init [("fdir/eq1.xml", "<m>1</m>")])).2.files
        = [("fdir/eq1.xml", "<m>1</m>")]
      ∧ (Page_Load demoEnv [("formula", "eq1"), ("fontsize", "20")]
            (Trace.init [("fdir/eq1.xml", "<m>1</m>")])).2.writes = []
      ∧ (Page_Load demoEnv [("formula", "eq1"), ("fontsize", "20")]
            (Trace.init [("fdir/eq1.xml", "<m>1</m>")])).2.renderLog
        = [buildProps demoEnv [("formula", "eq1"), ("fontsize", "20")]
            ⟨"<m>1</m>", [], []⟩ true]
      ∧ cachePath demoEnv "eq1"
          ∉ (Page_Load demoEnv [("formula", "eq1"), ("fontsize", "20")]
              (Trace.init [("fdir/eq1.xml", "<m>1</m>")])).2.reads :=
  c2_noncacheable_no_cache_touch demoEnv [("formula", "eq1"), ("fontsize", "20")]
    [("fdir/eq1.xml", "<m>1</m>")] "eq1" "<m>1</m>"
    (buildProps demoEnv [("formula", "eq1"), ("fontsize", "20")]
      ⟨"<m>1</m>", [], []⟩ true)
    (by decide) (by decide) (by decide) (by decide)

/-! ## Claim C1: cacheable requests render once -/

/-- C1: for a cacheable request, a pre-existing cache file is served
unchanged with no render call; on a miss the renderer runs once, its bytes
are persisted at `cacheDir/identifier.png` and served; and a second
identical request on the resulting store serves the same bytes with no
further render (render count stays one). -/
theorem c1_cacheable_render_once (env : Env) (query files cachedFiles : AList)
    (f0 content b : String) (props : AList)
    (hq : aget query "formula" = some f0)
    (hmc : mustBeCached env.attrs query = true)
    (hhit : aget cachedFiles (cachePath env f0) = some b)
    (hmiss : aget files (cachePath env f0) = none)
    (hcontent : aget files (descBase env f0 ++ "." ++ extOf files env f0)
      = some content)
    (hprops : createImageProps env query content (extOf files env f0) false
      = some props)
    (hw : env.writable (cachePath env f0) = true) :
    ((Page_Load env query (Trace.init cachedFiles)).1 = some (Response.png b)
        ∧ (Page_Load env query (Trace.init cachedFiles)).2.renderLog = []
        ∧ (Page_Load env query (Trace.init cachedFiles)).2.files = cachedFiles)
      ∧ (Page_Load env query (Trace.init files)).1
        = some (Response.png (env.render props))
      ∧ (Page_Load env query (Trace.init files)).2.renderLog = [props]
      ∧ (Page_Load env query (Trace.init files)).2.files
        = aset files (cachePath env f0) (env.render props)
      ∧ (Page_Load env query
          (Page_Load env query (Trace.init files)).2).1
        = some (Response.png (env.render props))
      ∧ (Page_Load env query
          (Page_Load env query (Trace.init files)).2).2.renderLog = [props] := by
  simp only [descBase, extOf] at hcontent hprops
  simp only [cachePath] at hhit hmiss hw ⊢
  constructor
  · -- cache hit: served unchanged, no render
    cases hini : (aget cachedFiles (env.formulaDir ++ "/"
        ++ getFileNameWithoutExtension f0 ++ ".ini")).isSome with
    | true =>
      simp [Page_Load, hq, formulaRequest, hmc, probe, readF, serveFile,
        Trace.init, hini, hhit]
    | false =>
      simp [Page_Load, hq, formulaRequest, hmc, probe, readF, serveFile,
        Trace.init, hini, hhit]
  · -- cache miss: render once, persist, serve; second request is a hit
    cases hini : (aget files (env.formulaDir ++ "/"
        ++ getFileNameWithoutExtension f0 ++ ".ini")).isSome with
    | true =>
      simp only [hini, if_true] at hcontent hprops
      simp [Page_Load, hq, formulaRequest, hmc, probe, readF, serveFile,
        createAndSaveImage, createImage, callRender, saveImage, Trace.init,
        hini, hmiss, hcontent, hprops, hw, aget_aset, png_ne_dot_ini,
        png_ne_ini]
    | false =>
      simp only [hini, if_false, Bool.false_eq_true] at hcontent hprops
      simp [Page_Load, hq, formulaRequest, hmc, probe, readF, serveFile,
        createAndSaveImage, createImage, callRender, saveImage, Trace.init,
        hini, hmiss, hcontent, hprops, hw, aget_aset, png_ne_dot_ini,
        png_ne_xml]

/-- Witness for C1 at the concrete identifier `eq1`: a hit store with a
cached entry, and a fresh store with only the descriptor. -/
theorem c1_witness :
    ((Page_Load demoEnv [("formula", "eq1")]
          (Trace.init [("cdir/eq1.png", "CACHED")])).1
        = some (Response.png "CACHED")
        ∧ (Page_Load demoEnv [("formula", "eq1")]
            (Trace.init [("cdir/eq1.png", "CACHED")])).2.renderLog = []
        ∧ (Page_Load demoEnv [("formula", "eq1")]
            (Trace.init [("cdir/eq1.png", "CACHED")])).2.files
          = [("cdir/eq1.png", "CACHED")])
      ∧ (Page_Load demoEnv [("formula", "eq1")]
          (Trace.init [("fdir/eq1.xml", "<m>1</m>")])).1
        = some (Response.png (demoEnv.render
            (buildProps demoEnv [("formula", "eq1")] ⟨"<m>1</m>", [], []⟩ false)))
      ∧ (Page_Load demoEnv [("formula", "eq1")]
          (Trace.init [("fdir/eq1.xml", "<m>1</m>")])).2.renderLog
        = [buildProps demoEnv [("formula", "eq1")] ⟨"<m>1</m>", [], []⟩ false]
      ∧ (Page_Load demoEnv [("formula", "eq1")]
          (Trace.init [("fdir/eq1.xml", "<m>1</m>")])).2.files
        = aset [("fdir/eq1.xml", "<m>1</m>")] (cachePath demoEnv "eq1")
            (demoEnv.render
              (buildProps demoEnv [("formula", "eq1")] ⟨"<m>1</m>", [], []⟩ false))
      ∧ (Page_Load demoEnv [("formula", "eq1")]
          (Page_Load demoEnv [("formula", "eq1")]
            (Trace.init [("fdir/eq1.xml", "<m>1</m>")])).2).1
        = some (Response.png (demoEnv.render
            (buildProps demoEnv [("formula", "eq1")] ⟨"<m>1</m>", [], []⟩ false)))
      ∧ (Page_Load demoEnv [("formula", "eq1")]
          (Page_Load demoEnv [("formula", "eq1")]
            (Trace.init [("fdir/eq1.xml", "<m>1</m>")])).2).2.renderLog
        = [buildProps demoEnv [("formula", "eq1")] ⟨"<m>1</m>", [], []⟩ false] :=
  c1_cacheable_render_once demoEnv [("formula", "eq1")]
    [("fdir/eq1.xml", "<m>1</m>")] [("cdir/eq1.png", "CACHED")] "eq1"
    "<m>1</m>" "CACHED"
    (buildProps demoEnv [("formula", "eq1")] ⟨"<m>1</m>", [], []⟩ false)
    (by decide) (by decide) (by decide) (by decide) (by decide) (by decide)
    (by decide)

/-! ## Claim C9: persistence failure on the cacheable path -/

/-- C9 counterexample: with a file system that refuses to create
`cdir/eq9.png`, a cacheable request renders successfully (one render call)
but the handler throws out of `saveImage` and serves nothing, instead of
serving the rendered bytes as the claim states. -/
theorem c9_counterexample :
    (Page_Load demoEnvReadOnlyCache [("formula", "eq9")]
        (Trace.init [("fdir/eq9.xml", "<m>9</m>")])).1 = none
      ∧ (Page_Load demoEnvReadOnlyCache [("formula", "eq9")]
          (Trace.init [("fdir/eq9.xml", "<m>9</m>")])).2.renderLog ≠ [] := by
  decide

/-- C9 amended: on a cacheable miss whose render succeeds but whose cache
write fails, the handler aborts with no response (the exception from the
`FileStream` constructor in `saveImage` propagates out of `Page_Load`, which
serves the response by re-reading the cache file rather than from the
rendered stream); the renderer has run once and the store is unchanged. -/
theorem c9_write_failure_aborts (env : Env) (query files : AList)
    (f0 content : String) (props : AList)
    (hq : aget query "formula" = some f0)
    (hmc : mustBeCached env.attrs query = true)
    (hmiss : aget files (cachePath env f0) = none)
    (hcontent : aget files (descBase env f0 ++ "." ++ extOf files env f0)
      = some content)
    (hprops : createImageProps env query content (extOf files env f0) false
      = some props)
    (hw : env.writable (cachePath env f0) = false) :
    (Page_Load env query (Trace.init files)).1 = none
      ∧ (Page_Load env query (Trace.init files)).2.renderLog = [props]
      ∧ (Page_Load env query (Trace.init files)).2.files = files
      ∧ (Page_Load env query (Trace.init files)).2.writes = [] := by
  simp only [descBase, extOf] at hcontent hprops
  simp only [cachePath] at hmiss hw
  cases hini : (aget files (env.formulaDir ++ "/"
      ++ getFileNameWithoutExtension f0 ++ ".ini")).isSome with
  | true =>
    simp only [hini, if_true] at hcontent hprops
    simp [Page_Load, hq, formulaRequest, hmc, probe, readF, serveFile,
      createAndSaveImage, createImage, callRender, saveImage, Trace.init,
      hini, hmiss, hcontent, hprops, hw]
  | false =>
    simp only [hini, if_false, Bool.false_eq_true] at hcontent hprops
    simp [Page_Load, hq, formulaRequest, hmc, probe, readF, serveFile,
      createAndSaveImage, createImage, callRender, saveImage, Trace.init,
      hini, hmiss, hcontent, hprops, hw]

/-- Witness for the amended C9 at the concrete identifier `eq9`. -/
theorem c9_witness :
    (Page_Load demoEnvReadOnlyCache [("formula", "eq9")]
        (Trace.init [("fdir/eq9.xml", "<m>9</m>")])).1 = none
      ∧ (Page_Load demoEnvReadOnlyCache [("formula", "eq9")]
          (Trace.init [("fdir/eq9.xml", "<m>9</m>")])).2.renderLog
        = [buildProps demoEnvReadOnlyCache [("formula", "eq9")]
            ⟨"<m>9</m>", [], []⟩ false]
      ∧ (Page_Load demoEnvReadOnlyCache [("formula", "eq9")]
          (Trace.init [("fdir/eq9.xml", "<m>9</m>")])).2.files
        = [("fdir/eq9.xml", "<m>9</m>")]
      ∧ (Page_Load demoEnvReadOnlyCache [("formula", "eq9")]
          (Trace.init [("fdir/eq9.xml", "<m>9</m>")])).2.writes = [] :=
  c9_write_failure_aborts demoEnvReadOnlyCache [("formula", "eq9")]
    [("fdir/eq9.xml", "<m>9</m>")] "eq9" "<m>9</m>"
    (buildProps demoEnvReadOnlyCache [("formula", "eq9")]
      ⟨"<m>9</m>", [], []⟩ false)
    (by decide) (by decide) (by decide) (by decide) (by decide) (by decide)

/-! ## Claim C3: traversal identifiers are stripped, not rejected -/

theorem string_append_assoc (a b c : String) : a ++ b ++ c = a ++ (b ++ c) := by
  apply string_eq_of_data_eq
  simp [data_append, List.append_assoc]

theorem dot_ini_assoc (a : String) : a ++ "." ++ "ini" = a ++ ".ini" := by
  rw [string_append_assoc]
  rfl

theorem dot_xml_assoc (a : String) : a ++ "." ++ "xml" = a ++ ".xml" := by
  rw [string_append_assoc]
  rfl

/-- C3 counterexample: the identifier `"../secret"` is not rejected (there
is no `InvalidIdentifierError` anywhere in the handler): `Page_Load` strips
it to the stem `"secret"`, probes and reads the file system, and serves a
PNG. -/
theorem c3_counterexample :
    getFileNameWithoutExtension "../secret" = "secret"
      ∧ (Page_Load demoEnv [("formula", "../secret")]
          (Trace.init [("fdir/secret.xml", "<m>s</m>")])).1
        = some (Response.png "PNG[<m>s</m>]")
      ∧ (Page_Load demoEnv [("formula", "../secret")]
          (Trace.init [("fdir/secret.xml", "<m>s</m>")])).2.reads ≠ [] := by
  decide

/-- C3 amended: the dispatcher does not reject traversal or empty
identifiers; it strips every identifier to its filename stem
(`Path.GetFileNameWithoutExtension`) before any file-system access, so every
path it reads or writes is derived from the stem: reads stay inside the
descriptor probes and the per-stem cache entry, writes inside the per-stem
cache entry. -/
theorem c3_stem_sanitization (env : Env) (query files : AList) (f0 : String)
    (hq : aget query "formula" = some f0) :
    (Page_Load env query (Trace.init files)).2.reads
        ⊆ [descBase env f0 ++ ".ini", descBase env f0 ++ ".xml",
           cachePath env f0]
      ∧ (Page_Load env query (Trace.init files)).2.writes
        ⊆ [cachePath env f0] := by
  simp only [descBase, cachePath]
  cases hini : (aget files (env.formulaDir ++ "/"
      ++ getFileNameWithoutExtension f0 ++ ".ini")).isSome with
  | true =>
    simp only [Page_Load, hq, formulaRequest, createAndSaveImage, createImage,
      probe, readF, serveFile, saveImage, callRender, Trace.init, hini,
      if_true, dot_ini_assoc]
    cases hmc : mustBeCached env.attrs query with
    | false =>
      simp only [hmc, Bool.false_eq_true, if_false]
      cases hread : aget files (env.formulaDir ++ "/"
          ++ getFileNameWithoutExtension f0 ++ ".ini") with
      | none => simp [hread]
      | some content =>
        simp only [hread]
        cases hpr : createImageProps env query content "ini" true with
        | none => simp [hpr]
        | some props => simp [hpr]
    | true =>
      simp only [hmc, if_true]
      cases hcp : aget files (env.cacheDir ++ "/"
          ++ getFileNameWithoutExtension f0 ++ ".png") with
      | some b => simp [hcp]
      | none =>
        simp only [hcp, Option.isSome_none, Bool.false_eq_true, if_false]
        cases hread : aget files (env.formulaDir ++ "/"
            ++ getFileNameWithoutExtension f0 ++ ".ini") with
        | none => simp [hread]
        | some content =>
          simp only [hread]
          cases hpr : createImageProps env query content "ini" false with
          | none => simp [hpr]
          | some props =>
            simp only [hpr]
            cases hw : env.writable (env.cacheDir ++ "/"
                ++ getFileNameWithoutExtension f0 ++ ".png") with
            | false => simp [hw]
            | true => simp [hw, aget_aset]
  | false =>
    simp only [Page_Load, hq, formulaRequest, createAndSaveImage, createImage,
      probe, readF, serveFile, saveImage, callRender, Trace.init, hini,
      Bool.false_eq_true, if_false, dot_xml_assoc]
    cases hmc : mustBeCached env.attrs query with
    | false =>
      simp only [hmc, Bool.false_eq_true, if_false]
      cases hread : aget files (env.formulaDir ++ "/"
          ++ getFileNameWithoutExtension f0 ++ ".xml") with
      | none => simp [hread]
      | some content =>
        simp only [hread]
        cases hpr : createImageProps env query content "xml" true with
        | none => simp [hpr]
        | some props => simp [hpr]
    | true =>
      simp only [hmc, if_true]
      cases hcp : aget files (env.cacheDir ++ "/"
          ++ getFileNameWithoutExtension f0 ++ ".png") with
      | some b => simp [hcp]
      | none =>
        simp only [hcp, Option.isSome_none, Bool.false_eq_true, if_false]
        cases hread : aget files (env.formulaDir ++ "/"
            ++ getFileNameWithoutExtension f0 ++ ".xml") with
        | none => simp [hread]
        | some content =>
          simp only [hread]
          cases hpr : createImageProps env query content "xml" false with
          | none => simp [hpr]
          | some props =>
            simp only [hpr]
            cases hw : env.writable (env.cacheDir ++ "/"
                ++ getFileNameWithoutExtension f0 ++ ".png") with
            | false => simp [hw]
            | true => simp [hw, aget_aset]

/-- Witness for the amended C3 at the traversal identifier `"../secret"`:
all file accesses use the stem `secret`. -/
theorem c3_witness :
    (Page_Load demoEnv [("formula", "../secret")]
        (Trace.init [("fdir/secret.xml", "<m>s</m>")])).2.reads
      ⊆ [descBase demoEnv "../secret" ++ ".ini",
         descBase demoEnv "../secret" ++ ".xml", cachePath demoEnv "../secret"]
      ∧ (Page_Load demoEnv [("formula", "../secret")]
          (Trace.init [("fdir/secret.xml", "<m>s</m>")])).2.writes
        ⊆ [cachePath demoEnv "../secret"] :=
  c3_stem_sanitization demoEnv [("formula", "../secret")]
    [("fdir/secret.xml", "<m>s</m>")] "../secret" (by decide)

end Wiris
